import Mathlib

/-!
Verification of the parser and code emitter of `src/parse/ast.rs` (a
single-function C-subset compiler front end).  The Rust source is embedded
shallowly: the token pushback iterator `PutBackN` becomes an explicit
`List Token` threaded through every parser, the process-wide label counter
becomes an explicit `Nat` threaded through emission, `HashMap<String, usize>`
becomes an association list, and the emitted assembly text becomes a list of
`Instr` values, each of which corresponds to one textual assembly line of the
source (`Instr.render` gives the exact text).  Fallible Rust functions
returning `Result` become functions into `PResult`/`EmResult`; a call of
`Option::unwrap` on `None` or a `panic!`/`unimplemented!` is modelled by the
distinguished outcome `panicked`.  Recursive-descent parsing is made total
with an explicit fuel parameter; running out of fuel is the distinguished
outcome `fuelOut`, which never occurs when the fuel exceeds the token count.
-/

namespace CC

/-- Keywords of the token stream (`Keyword` in `src/parse/lex.rs`, used by
`ast.rs`). -/
inductive Keyword where
  | Int
  | Return
  deriving DecidableEq, Repr

/-- Literal payloads (`Literal` in `src/parse/lex.rs`): a 32-bit integer
literal, or the `None` placeholder used in expected-token lists. -/
inductive Literal where
  | Int (i : Nat)
  | None
  deriving DecidableEq, Repr

/-- Tokens consumed by the parser (`Token` in `src/parse/lex.rs`; the variant
set is the one `ast.rs` matches on). -/
inductive Token where
  | Keyword (k : CC.Keyword)
  | Identifier (s : String)
  | Literal (l : CC.Literal)
  | OpenParenthesis
  | CloseParenthesis
  | OpenBrace
  | CloseBrace
  | Semicolon
  | Negative
  | Negation
  | Complement
  | Addition
  | Multiplication
  | Division
  | Modulo
  | BitAnd
  | BitOr
  | BitXor
  | ShiftLeft
  | ShiftRight
  | LessThan
  | LessThanEqual
  | GreaterThan
  | GreaterThanEqual
  | Equal
  | NotEqual
  | And
  | Or
  | Assign
  | AssignAdd
  | AssignSub
  | AssignMul
  | AssignDiv
  | AssignMod
  | AssignAnd
  | AssignOr
  | AssignXor
  | AssignShiftLeft
  | AssignShiftRight
  deriving DecidableEq, Repr

/-- The error enum of `ast.rs` (`enum Error`), with the diagnostic payloads of
each variant. -/
inductive Error where
  | UnexpectedToken (wanted : String) (expected : List Token) (found : Token)
      (tokens : List Token)
  | InvalidSyntax
  | UnexpectedEnd (wanted : String)
  | DuplicateDeclaration (var : String)
  | UndeclaredVariable (var : String)
  deriving DecidableEq, Repr

/-- Outcome of a parsing function.  `ok`/`err` carry the remaining token
stream (the Rust code mutates the `PutBackN` iterator in place, so the stream
state after an error is observable by later code).  `panicked` models a Rust
panic (`Option::unwrap` on an exhausted stream); `fuelOut` is an artifact of
the fuel parameter. -/
inductive PResult (α : Type) where
  | ok (a : α) (rest : List Token)
  | err (e : Error) (rest : List Token)
  | panicked
  | fuelOut
  deriving DecidableEq, Repr

/-- Sequencing of parse results, mirroring the Rust `?` operator. -/
def PResult.bind {α β : Type} (r : PResult α) (f : α → List Token → PResult β) :
    PResult β :=
  match r with
  | .ok a rest => f a rest
  | .err e rest => .err e rest
  | .panicked => .panicked
  | .fuelOut => .fuelOut

/-- Integer constants (`enum Constant`). -/
inductive Constant where
  | Int (i : Nat)
  deriving DecidableEq, Repr

/-- Unary operators (`enum UnaryOperator`). -/
inductive UnaryOperator where
  | Negative
  | Complement
  | Negation
  deriving DecidableEq, Repr

/-- Binary operators (`enum BinaryOperator`). -/
inductive BinaryOperator where
  | Addition
  | Subtraction
  | Multiplication
  | Division
  | Modulo
  | BitAnd
  | BitOr
  | BitXor
  | ShiftLeft
  | ShiftRight
  | LessThan
  | LessThanEqual
  | GreaterThan
  | GreaterThanEqual
  | Equal
  | NotEqual
  | And
  | Or
  deriving DecidableEq, Repr

/-- Expressions (`enum Expression`). -/
inductive Expression where
  | Constant (c : CC.Constant)
  | Var (s : String)
  | Unary (op : UnaryOperator) (e : Expression)
  | Binary (op : BinaryOperator) (l : Expression) (r : Expression)
  | Assign (v : String) (e : Expression)
  deriving DecidableEq, Repr

/-- Statements (`enum Statement`). -/
inductive Statement where
  | Return (e : Expression)
  | Declaration (s : String) (v : Option Expression)
  | Expression (e : CC.Expression)
  deriving DecidableEq, Repr

/-- A function: name and statement body (`struct Function`). -/
structure Function where
  name : String
  body : List Statement
  deriving DecidableEq, Repr

/-- The root node (`struct Program(Function)`). -/
structure Program where
  fn : Function
  deriving DecidableEq, Repr

/-- The `consume_token` helper: `t.next().unwrap()` panics on an exhausted
stream; on a mismatch the error payload drains the remaining stream
(`t.collect()`). -/
def consume_token (ts : List Token) (tok : Token) : PResult Unit :=
  match ts with
  | [] => .panicked
  | next :: rest =>
    if next = tok then .ok () rest
    else .err (.UnexpectedToken "" [tok] next rest) []

/-- `UnaryOperator::parse`. -/
def UnaryOperator.parse : List Token → PResult UnaryOperator
  | [] => .panicked
  | Token.Complement :: rest => .ok .Complement rest
  | Token.Negative :: rest => .ok .Negative rest
  | Token.Negation :: rest => .ok .Negation rest
  | tok :: rest =>
    .err (.UnexpectedToken "UnaryOperator"
      [Token.Complement, Token.Negation, Token.Negative] tok rest) []

/-- `Constant::parse`. -/
def Constant.parse : List Token → PResult Constant
  | [] => .panicked
  | Token.Literal (.Int i) :: rest => .ok (.Int i) rest
  | tok :: rest =>
    .err (.UnexpectedToken "Constant" [Token.Literal (.Int 0)] tok rest) []

/-- The `Symb` helper enum local to `parse_expr`. -/
inductive Symb where
  | Bin (op : BinaryOperator)
  | Assign (s : Option Token)
  deriving DecidableEq, Repr

/-- `enum Associativity`. -/
inductive Associativity where
  | Left
  | Right
  deriving DecidableEq, Repr

/-- The operator-dispatch match of `parse_expr`: for a token that denotes an
infix or assignment operator, the symbol, its precedence, its associativity
and the token pushed back when the precedence is below the minimum; `none`
for every other token (the arm that pushes the token back and breaks).  The
`LessThanEqual` entry records the source exactly: its push-back token is
`Token::LessThan`, not `Token::LessThanEqual`. -/
def operator_info : Token → Option (Symb × Nat × Associativity × Token)
  | .Addition => some (.Bin .Addition, 11, .Left, .Addition)
  | .Negative => some (.Bin .Subtraction, 11, .Left, .Negative)
  | .Multiplication => some (.Bin .Multiplication, 12, .Left, .Multiplication)
  | .Division => some (.Bin .Division, 12, .Left, .Division)
  | .LessThan => some (.Bin .LessThan, 9, .Left, .LessThan)
  | .LessThanEqual => some (.Bin .LessThanEqual, 9, .Left, .LessThan)
  | .GreaterThan => some (.Bin .GreaterThan, 9, .Left, .GreaterThan)
  | .GreaterThanEqual => some (.Bin .GreaterThanEqual, 9, .Left, .GreaterThanEqual)
  | .Equal => some (.Bin .Equal, 8, .Left, .Equal)
  | .NotEqual => some (.Bin .NotEqual, 8, .Left, .NotEqual)
  | .And => some (.Bin .And, 4, .Left, .And)
  | .Or => some (.Bin .Or, 3, .Left, .Or)
  | .Assign => some (.Assign none, 1, .Right, .Assign)
  | .AssignAdd => some (.Assign (some .AssignAdd), 1, .Right, .AssignAdd)
  | .AssignSub => some (.Assign (some .AssignSub), 1, .Right, .AssignSub)
  | .AssignDiv => some (.Assign (some .AssignDiv), 1, .Right, .AssignDiv)
  | .AssignMul => some (.Assign (some .AssignMul), 1, .Right, .AssignMul)
  | .AssignMod => some (.Assign (some .AssignMod), 1, .Right, .AssignMod)
  | .AssignAnd => some (.Assign (some .AssignAnd), 1, .Right, .AssignAnd)
  | .AssignOr => some (.Assign (some .AssignOr), 1, .Right, .AssignOr)
  | .AssignXor => some (.Assign (some .AssignXor), 1, .Right, .AssignXor)
  | .AssignShiftLeft => some (.Assign (some .AssignShiftLeft), 1, .Right, .AssignShiftLeft)
  | .AssignShiftRight => some (.Assign (some .AssignShiftRight), 1, .Right, .AssignShiftRight)
  | _ => none

/-- The compound-assignment desugaring table inside `parse_expr`; the Rust
default arm is `panic!`, modelled by `none`. -/
def compound_op : Token → Option BinaryOperator
  | .AssignAdd => some .Addition
  | .AssignSub => some .Subtraction
  | .AssignMul => some .Multiplication
  | .AssignDiv => some .Division
  | .AssignMod => some .Modulo
  | .AssignAnd => some .BitAnd
  | .AssignOr => some .BitOr
  | .AssignXor => some .BitXor
  | .AssignShiftLeft => some .ShiftLeft
  | .AssignShiftRight => some .ShiftRight
  | _ => none

mutual

/-- The local `parse_atom` of `Expression::parse`.  In the parenthesized arm
the sub-expression result is held while `consume_token` runs, exactly as in
the source (`let v = parse_expr(t, 1); consume_token(t, CloseParenthesis)?; v`). -/
def parse_atom : Nat → List Token → PResult Expression
  | 0, _ => .fuelOut
  | fuel+1, ts =>
    match ts with
    | [] => .err (.UnexpectedEnd "Expression") []
    | tok :: rest =>
      match tok with
      | .Negative | .Negation | .Complement =>
        (UnaryOperator.parse (tok :: rest)).bind fun op rest1 =>
          (parse_atom fuel rest1).bind fun e rest2 =>
            .ok (.Unary op e) rest2
      | .Literal l =>
        (Constant.parse (Token.Literal l :: rest)).bind fun c rest1 =>
          .ok (.Constant c) rest1
      | .OpenParenthesis =>
        (match parse_expr fuel rest 1 with
         | .ok v rest1 =>
           (consume_token rest1 .CloseParenthesis).bind fun _ rest2 => .ok v rest2
         | .err e rest1 =>
           (consume_token rest1 .CloseParenthesis).bind fun _ rest2 =>
             .err e rest2
         | .panicked => .panicked
         | .fuelOut => .fuelOut)
      | .Identifier s => .ok (.Var s) rest
      | _ =>
        .err (.UnexpectedToken "Expression atom"
          [Token.Negative, Token.Negation, Token.Complement,
           Token.OpenParenthesis, Token.Literal .None] tok rest) []

/-- The local `parse_expr` of `Expression::parse`: parse one atom, then run
the precedence-climbing loop. -/
def parse_expr : Nat → List Token → Nat → PResult Expression
  | 0, _, _ => .fuelOut
  | fuel+1, ts, min_precedence =>
    (parse_atom fuel ts).bind fun lhs rest =>
      parse_expr_loop fuel lhs min_precedence rest

/-- The `loop` of `parse_expr`: peek the next token; a non-operator token is
pushed back and the loop breaks; an operator below the minimum precedence
pushes back its push-back token and breaks; otherwise the right-hand side is
parsed and folded into a `Binary` or `Assign` node. -/
def parse_expr_loop : Nat → Expression → Nat → List Token → PResult Expression
  | 0, _, _, _ => .fuelOut
  | fuel+1, lhs, min_precedence, ts =>
    match ts with
    | [] => .err (.UnexpectedEnd "Expression") []
    | tok :: rest =>
      match operator_info tok with
      | none => .ok lhs (tok :: rest)
      | some (op, prec, assoc, pbtok) =>
        if prec < min_precedence then .ok lhs (pbtok :: rest)
        else
          let next_min := if assoc = Associativity.Left then prec + 1 else prec
          (parse_expr fuel rest next_min).bind fun rhs rest1 =>
            match op with
            | .Bin bop =>
              parse_expr_loop fuel (.Binary bop lhs rhs) min_precedence rest1
            | .Assign s =>
              match lhs with
              | .Var v =>
                match s with
                | none => parse_expr_loop fuel (.Assign v rhs) min_precedence rest1
                | some st =>
                  match compound_op st with
                  | some bop =>
                    parse_expr_loop fuel
                      (.Assign v (.Binary bop (.Var v) rhs)) min_precedence rest1
                  | none => .panicked
              | _ => .err .InvalidSyntax rest1

end

/-- `Expression::parse`: enter the climb at minimum precedence 1. -/
def Expression.parse (fuel : Nat) (ts : List Token) : PResult Expression :=
  parse_expr fuel ts 1

/-- `Statement::parse`. -/
def Statement.parse (fuel : Nat) : List Token → PResult Statement
  | [] => .err (.UnexpectedEnd "Keyword") []
  | Token.Keyword .Return :: rest =>
    (Expression.parse fuel rest).bind fun e rest1 =>
      (consume_token rest1 .Semicolon).bind fun _ rest2 => .ok (.Return e) rest2
  | Token.Keyword .Int :: rest =>
    (match rest with
     | [] => .err (.UnexpectedEnd "Statement") []
     | Token.Identifier s :: rest1 =>
       (match rest1 with
        | [] => .err (.UnexpectedEnd "Identifier") []
        | Token.Semicolon :: rest2 => .ok (.Declaration s none) rest2
        | Token.Assign :: rest2 =>
          (Expression.parse fuel
              (Token.Identifier s :: Token.Assign :: rest2)).bind fun e rest3 =>
            (consume_token rest3 .Semicolon).bind fun _ rest4 =>
              .ok (.Declaration s (some e)) rest4
        | tok :: rest2 =>
          .err (.UnexpectedToken "Statement part"
            [Token.Semicolon, Token.Assign] tok rest2) [])
     | tok :: rest1 =>
       .err (.UnexpectedToken "Identifier" [Token.Identifier "_"] tok rest1) [])
  | Token.Identifier s :: rest =>
    (Expression.parse fuel (Token.Identifier s :: rest)).bind fun e rest1 =>
      (consume_token rest1 .Semicolon).bind fun _ rest2 =>
        .ok (.Expression e) rest2
  | Token.Literal l :: rest =>
    (Expression.parse fuel (Token.Literal l :: rest)).bind fun e rest1 =>
      (consume_token rest1 .Semicolon).bind fun _ rest2 =>
        .ok (.Expression e) rest2
  | tok :: rest =>
    .err (.UnexpectedToken "Statement"
      [Token.Keyword .Return, Token.Keyword .Int, Token.Identifier ""]
      tok rest) []

/-- The statement loop of `Function::parse`: `t.next().unwrap()` panics on an
exhausted stream; a closing brace ends the body. -/
def parse_body (fuel : Nat) : Nat → List Token → PResult (List Statement)
  | 0, _ => .fuelOut
  | _+1, [] => .panicked
  | n+1, tok :: rest =>
    if tok = Token.CloseBrace then .ok [] rest
    else
      (Statement.parse fuel (tok :: rest)).bind fun s rest1 =>
        (parse_body fuel n rest1).bind fun ss rest2 => .ok (s :: ss) rest2

/-- `Function::parse`: the fixed header `int <identifier> ( ) {`, then the
statement loop.  `t.next().unwrap()` for the identifier panics on an
exhausted stream; a non-identifier there is `InvalidSyntax`. -/
def Function.parse (fuel : Nat) (ts : List Token) : PResult Function :=
  (consume_token ts (Token.Keyword .Int)).bind fun _ rest =>
    match rest with
    | [] => .panicked
    | Token.Identifier name :: rest1 =>
      (consume_token rest1 .OpenParenthesis).bind fun _ rest2 =>
        (consume_token rest2 .CloseParenthesis).bind fun _ rest3 =>
          (consume_token rest3 .OpenBrace).bind fun _ rest4 =>
            (parse_body fuel fuel rest4).bind fun body rest5 =>
              .ok { name := name, body := body } rest5
    | _ :: rest1 => .err .InvalidSyntax rest1

/-- `Program::parse`. -/
def Program.parse (fuel : Nat) (ts : List Token) : PResult Program :=
  (Function.parse fuel ts).bind fun f rest => .ok { fn := f } rest

/-- The public `parse` entry point. -/
def parse (fuel : Nat) (t : List Token) : PResult Program :=
  Program.parse fuel t

/-! ## Code emission

The emitter produces assembly text.  Each line of that text is modelled by
one `Instr` value; `Instr.render` recovers the text of a line.  The global
atomic label counter (`LABEL_COUNT`/`gen_label`) is modelled by threading a
`Nat` counter through emission; a generated jump target is identified by its
counter value `n`, whose textual name is `gen_label n = "__ccgen" ++ n`. -/

/-- x86-64 registers the emitter mentions. -/
inductive Reg where
  | rax
  | rbx
  | rcx
  | rdx
  | rbp
  | rsp
  | r12
  | r13
  | r14
  | r15
  deriving DecidableEq, Repr

/-- One emitted assembly line.  Generated jump targets carry the label
counter value from which `gen_label` built their name. -/
inductive Instr where
  | globalSym (name : String)
  | symLabel (name : String)
  | label (n : Nat)
  | push (r : Reg)
  | pop (r : Reg)
  | movReg (dst src : Reg)
  | movImm (dst : Reg) (v : Nat)
  | movLoad (dst : Reg) (off : Nat)
  | movStore (off : Nat) (src : Reg)
  | negR (r : Reg)
  | notR (r : Reg)
  | add (dst src : Reg)
  | sub (dst src : Reg)
  | imul (dst src : Reg)
  | andR (dst src : Reg)
  | orR (dst src : Reg)
  | xorR (dst src : Reg)
  | shl (dst src : Reg)
  | shr (dst src : Reg)
  | cmp (a b : Reg)
  | cmpImm (a : Reg) (v : Nat)
  | sete
  | setne
  | setl
  | setle
  | setg
  | setge
  | jne (n : Nat)
  | je (n : Nat)
  | jmp (n : Nat)
  | cqo
  | idiv (r : Reg)
  | ret
  deriving DecidableEq, Repr

/-- `gen_label`: the textual name built from a label-counter value. -/
def gen_label (n : Nat) : String :=
  "__ccgen" ++ toString n

/-- Textual form of a register. -/
def Reg.render : Reg → String
  | .rax => "rax"
  | .rbx => "rbx"
  | .rcx => "rcx"
  | .rdx => "rdx"
  | .rbp => "rbp"
  | .rsp => "rsp"
  | .r12 => "r12"
  | .r13 => "r13"
  | .r14 => "r14"
  | .r15 => "r15"

/-- Textual form of an emitted line, as it appears in the source's format
strings. -/
def Instr.render : Instr → String
  | .globalSym s => "global " ++ s
  | .symLabel s => s ++ ":"
  | .label n => gen_label n ++ ":"
  | .push r => "push " ++ r.render
  | .pop r => "pop " ++ r.render
  | .movReg d s => "mov " ++ d.render ++ ", " ++ s.render
  | .movImm d v => "mov " ++ d.render ++ ", " ++ toString v
  | .movLoad d off => "mov " ++ d.render ++ ", [rbp - " ++ toString off ++ "]"
  | .movStore off s => "mov [rbp - " ++ toString off ++ "], " ++ s.render
  | .negR r => "neg " ++ r.render
  | .notR r => "not " ++ r.render
  | .add d s => "add " ++ d.render ++ ", " ++ s.render
  | .sub d s => "sub " ++ d.render ++ ", " ++ s.render
  | .imul d s => "imul " ++ d.render ++ ", " ++ s.render
  | .andR d s => "and " ++ d.render ++ ", " ++ s.render
  | .orR d s => "or " ++ d.render ++ ", " ++ s.render
  | .xorR d s => "xor " ++ d.render ++ ", " ++ s.render
  | .shl d s => "shl " ++ d.render ++ ", " ++ s.render
  | .shr d s => "shr " ++ d.render ++ ", " ++ s.render
  | .cmp a b => "cmp " ++ a.render ++ ", " ++ b.render
  | .cmpImm a v => "cmp " ++ a.render ++ ", " ++ toString v
  | .sete => "sete al"
  | .setne => "setne al"
  | .setl => "setl al"
  | .setle => "setle al"
  | .setg => "setg al"
  | .setge => "setge al"
  | .jne n => "jne " ++ gen_label n
  | .je n => "je " ++ gen_label n
  | .jmp n => "jmp " ++ gen_label n
  | .cqo => "cqo"
  | .idiv r => "idiv " ++ r.render
  | .ret => "ret"

/-- The frame binder `HashMap<String, usize>`, as an association list; only
`contains_key`, `insert` of an absent key and `get` are used by the source. -/
abbrev VMap := List (String × Nat)

/-- `HashMap::contains_key`. -/
def VMap.contains_key (m : VMap) (k : String) : Bool :=
  m.any fun p => p.1 == k

/-- `HashMap::get`. -/
def VMap.get (m : VMap) (k : String) : Option Nat :=
  (m.find? fun p => p.1 == k).map (·.2)

/-- `HashMap::insert` of a key that is absent (the only way the source
inserts). -/
def VMap.insert (m : VMap) (k : String) (v : Nat) : VMap :=
  (k, v) :: m

/-- Outcome of an emission function; `panicked` models `panic!` and
`unimplemented!`. -/
inductive EmResult (α : Type) where
  | ok (a : α)
  | err (e : Error)
  | panicked
  deriving DecidableEq, Repr

/-- Sequencing of emission results, mirroring the Rust `?` operator. -/
def EmResult.bind {α β : Type} (r : EmResult α) (f : α → EmResult β) :
    EmResult β :=
  match r with
  | .ok a => f a
  | .err e => .err e
  | .panicked => .panicked

/-- `Constant::emit` produces the literal's text; here, its value, which
`Expression::emit` interpolates into `mov rax, _`. -/
def Constant.emit : Constant → Nat
  | .Int i => i

/-- `UnaryOperator::emit`. -/
def UnaryOperator.emit : UnaryOperator → List Instr
  | .Negative => [.negR .rax]
  | .Complement => [.notR .rax]
  | .Negation => [.cmpImm .rax 0, .movImm .rax 0, .sete]

/-- `BinaryOperator::emit`; the `And`/`Or` arms hit `unimplemented!`. -/
def BinaryOperator.emit : BinaryOperator → EmResult (List Instr)
  | .Addition => .ok [.add .rax .rcx]
  | .Subtraction => .ok [.sub .rcx .rax, .movReg .rax .rcx]
  | .Multiplication => .ok [.imul .rax .rcx]
  | .Division => .ok [.movReg .rbx .rax, .movReg .rax .rcx, .cqo, .idiv .rbx]
  | .Modulo =>
    .ok [.movReg .rbx .rax, .movReg .rax .rcx, .cqo, .idiv .rbx, .movReg .rax .rdx]
  | .BitAnd => .ok [.andR .rcx .rax, .movReg .rax .rcx]
  | .BitOr => .ok [.orR .rcx .rax, .movReg .rax .rcx]
  | .BitXor => .ok [.xorR .rcx .rax, .movReg .rax .rcx]
  | .ShiftLeft => .ok [.shl .rcx .rax, .movReg .rax .rcx]
  | .ShiftRight => .ok [.shr .rcx .rax, .movReg .rax .rcx]
  | .LessThan => .ok [.cmp .rcx .rax, .movImm .rax 0, .setl]
  | .LessThanEqual => .ok [.cmp .rcx .rax, .movImm .rax 0, .setle]
  | .GreaterThan => .ok [.cmp .rcx .rax, .movImm .rax 0, .setg]
  | .GreaterThanEqual => .ok [.cmp .rcx .rax, .movImm .rax 0, .setge]
  | .Equal => .ok [.cmp .rcx .rax, .movImm .rax 0, .sete]
  | .NotEqual => .ok [.cmp .rcx .rax, .movImm .rax 0, .setne]
  | .And => .panicked
  | .Or => .panicked

/-- `Expression::emit`.  Arguments after the expression are the frame binder,
the stack index and the label counter; the result carries the emitted lines
and the new label counter (expression emission never changes the binder or
the stack index).  In the logical `And`/`Or` arms the format arguments are
evaluated in source order: left operand, right operand, then the two
`gen_label()` calls, so the two fresh labels come after every label generated
inside the operands. -/
def Expression.emit :
    Expression → VMap → Nat → Nat → EmResult (List Instr × Nat)
  | .Var s, vmap, _stack_index, label_count =>
    match VMap.get vmap s with
    | some off => .ok ([.movLoad .rax off], label_count)
    | none => .err (.UndeclaredVariable s)
  | .Assign v e, vmap, stack_index, label_count =>
    (e.emit vmap stack_index label_count).bind fun (code, lc1) =>
      match VMap.get vmap v with
      | some off => .ok (code ++ [.movStore off .rax], lc1)
      | none => .err (.UndeclaredVariable v)
  | .Constant c, _vmap, _stack_index, label_count =>
    .ok ([.movImm .rax (Constant.emit c)], label_count)
  | .Unary op e, vmap, stack_index, label_count =>
    (e.emit vmap stack_index label_count).bind fun (code, lc1) =>
      .ok (code ++ UnaryOperator.emit op, lc1)
  | .Binary op e1 e2, vmap, stack_index, label_count =>
    if op ≠ BinaryOperator.And ∧ op ≠ BinaryOperator.Or then
      (e1.emit vmap stack_index label_count).bind fun (c1, lc1) =>
        (e2.emit vmap stack_index lc1).bind fun (c2, lc2) =>
          (BinaryOperator.emit op).bind fun opcode =>
            .ok (c1 ++ [.push .rax] ++ c2 ++ [.pop .rcx] ++ opcode, lc2)
    else
      match op with
      | .And =>
        (e1.emit vmap stack_index label_count).bind fun (c1, lc1) =>
          (e2.emit vmap stack_index lc1).bind fun (c2, lc2) =>
            .ok (c1 ++ [.cmpImm .rax 0, .jne lc2, .jmp (lc2 + 1), .label lc2]
                 ++ c2
                 ++ [.cmpImm .rax 0, .movImm .rax 0, .setne, .label (lc2 + 1)],
              lc2 + 2)
      | .Or =>
        (e1.emit vmap stack_index label_count).bind fun (c1, lc1) =>
          (e2.emit vmap stack_index lc1).bind fun (c2, lc2) =>
            .ok (c1 ++ [.cmpImm .rax 0, .je lc2, .jmp (lc2 + 1), .label lc2]
                 ++ c2
                 ++ [.cmpImm .rax 0, .movImm .rax 0, .setne, .label (lc2 + 1)],
              lc2 + 2)
      | _ => .panicked

/-- The epilogue emitted by a `Return` statement (a textual duplicate of the
function outro without the `mov rax, 0` default status). -/
def return_epilogue : List Instr :=
  [.movReg .rsp .rbp, .pop .r15, .pop .r14, .pop .r13, .pop .r12, .pop .rbp,
   .pop .rbx, .ret]

/-- `Statement::emit`; the result carries the emitted lines, the updated
binder, the updated stack index and the updated label counter. -/
def Statement.emit :
    Statement → VMap → Nat → Nat → EmResult (List Instr × VMap × Nat × Nat)
  | .Declaration s v, vmap, stack_index, label_count =>
    if VMap.contains_key vmap s then .err (.DuplicateDeclaration s)
    else
      let vmap1 := VMap.insert vmap s stack_index
      let stack_index1 := stack_index + 8
      match v with
      | some e =>
        (e.emit vmap1 stack_index1 label_count).bind fun (code, lc1) =>
          .ok (code ++ [.push .rax], vmap1, stack_index1, lc1)
      | none => .ok ([], vmap1, stack_index1, label_count)
  | .Expression e, vmap, stack_index, label_count =>
    (e.emit vmap stack_index label_count).bind fun (code, lc1) =>
      .ok (code, vmap, stack_index, lc1)
  | .Return e, vmap, stack_index, label_count =>
    (e.emit vmap stack_index label_count).bind fun (code, lc1) =>
      .ok (code ++ return_epilogue, vmap, stack_index, lc1)

/-- The body fold of `Function::emit`: statements are emitted in source
order, threading binder, stack index and label counter; the first error stops
the fold (Rust `collect::<Result<String>>`). -/
def emit_body :
    List Statement → VMap → Nat → Nat → EmResult (List Instr × VMap × Nat × Nat)
  | [], vmap, stack_index, label_count => .ok ([], vmap, stack_index, label_count)
  | s :: rest, vmap, stack_index, label_count =>
    (s.emit vmap stack_index label_count).bind fun (code, vmap1, si1, lc1) =>
      (emit_body rest vmap1 si1 lc1).bind fun (code2, vmap2, si2, lc2) =>
        .ok (code ++ code2, vmap2, si2, lc2)

/-- The fixed prologue of `Function::emit`. -/
def function_prologue (name : String) : List Instr :=
  [.globalSym name, .symLabel name, .push .rbx, .push .rbp, .push .r12,
   .push .r13, .push .r14, .push .r15, .movReg .rbp .rsp]

/-- The fixed outro of `Function::emit` (restore frame, pop saved registers,
default status 0, return). -/
def function_outro : List Instr :=
  [.movReg .rsp .rbp, .pop .r15, .pop .r14, .pop .r13, .pop .r12, .pop .rbp,
   .pop .rbx, .movImm .rax 0, .ret]

/-- `Function::emit`: the caller's stack index is shadowed by a fresh local
counter starting at 8; the body is wrapped in the fixed prologue/outro. -/
def Function.emit (f : Function) (vmap : VMap) (_stack_index : Nat)
    (label_count : Nat) : EmResult (List Instr × VMap × Nat) :=
  (emit_body f.body vmap 8 label_count).bind fun (code, vmap1, _si, lc1) =>
    .ok (function_prologue f.name ++ code ++ function_outro, vmap1, lc1)

/-- `Program::emit`. -/
def Program.emit (p : Program) (vmap : VMap) (stack_index : Nat)
    (label_count : Nat) : EmResult (List Instr × VMap × Nat) :=
  p.fn.emit vmap stack_index label_count

/-! ## A small machine semantics for emitted code

Used to check run-time consequences of the emitted instruction sequences.
Only the instructions needed for those checks have semantics; on any other
instruction (and on wider flag behaviour than the zero flag) execution gets
stuck rather than receiving an invented meaning. -/

/-- Machine state: the four scratch registers, the zero flag, the hardware
stack and the frame slots (keyed by their `rbp`-relative offset). -/
structure MState where
  rax : Int
  rbx : Int
  rcx : Int
  rdx : Int
  zf : Bool
  stack : List Int
  mem : List (Nat × Int)
  deriving DecidableEq, Repr

/-- Read a scratch register; the frame registers are not modelled. -/
def MState.getReg (st : MState) : Reg → Option Int
  | .rax => some st.rax
  | .rbx => some st.rbx
  | .rcx => some st.rcx
  | .rdx => some st.rdx
  | _ => none

/-- Write a scratch register. -/
def MState.setReg (st : MState) : Reg → Int → Option MState
  | .rax, v => some { st with rax := v }
  | .rbx, v => some { st with rbx := v }
  | .rcx, v => some { st with rcx := v }
  | .rdx, v => some { st with rdx := v }
  | _, _ => none

/-- Read a frame slot. -/
def mem_load (mem : List (Nat × Int)) (off : Nat) : Option Int :=
  (mem.find? fun p => p.1 == off).map (·.2)

/-- Replace the low byte of a 64-bit two's-complement value (the effect of
`set__ al` on `rax`). -/
def set_low_byte (v b : Int) : Int :=
  v - v.emod 256 + b

/-- Position of a label definition in the program. -/
def find_label (prog : List Instr) (n : Nat) : Option Nat :=
  prog.findIdx? fun i => i == Instr.label n

/-- Fuel-bounded execution from a program counter.  Falling off the end of
the program or reaching `ret` halts with the current state; an unmodelled
instruction, a bad jump target or exhausted fuel yields `none`. -/
def run : Nat → List Instr → Nat → MState → Option MState
  | 0, _, _, _ => none
  | fuel+1, prog, pc, st =>
    match prog[pc]? with
    | none => some st
    | some i =>
      match i with
      | .label _ => run fuel prog (pc + 1) st
      | .jmp n => (find_label prog n).bind fun j => run fuel prog j st
      | .je n =>
        if st.zf then (find_label prog n).bind fun j => run fuel prog j st
        else run fuel prog (pc + 1) st
      | .jne n =>
        if st.zf then run fuel prog (pc + 1) st
        else (find_label prog n).bind fun j => run fuel prog j st
      | .movImm r v =>
        (st.setReg r (Int.ofNat v)).bind fun st1 => run fuel prog (pc + 1) st1
      | .movReg d s =>
        (st.getReg s).bind fun v =>
          (st.setReg d v).bind fun st1 => run fuel prog (pc + 1) st1
      | .movLoad d off =>
        (mem_load st.mem off).bind fun v =>
          (st.setReg d v).bind fun st1 => run fuel prog (pc + 1) st1
      | .movStore off s =>
        (st.getReg s).bind fun v =>
          run fuel prog (pc + 1) { st with mem := (off, v) :: st.mem }
      | .cmpImm r v =>
        (st.getReg r).bind fun a =>
          run fuel prog (pc + 1) { st with zf := decide (a = Int.ofNat v) }
      | .cmp a b =>
        (st.getReg a).bind fun x =>
          (st.getReg b).bind fun y =>
            run fuel prog (pc + 1) { st with zf := decide (x = y) }
      | .sete =>
        run fuel prog (pc + 1)
          { st with rax := set_low_byte st.rax (if st.zf then 1 else 0) }
      | .setne =>
        run fuel prog (pc + 1)
          { st with rax := set_low_byte st.rax (if st.zf then 0 else 1) }
      | .push r =>
        (st.getReg r).bind fun v =>
          run fuel prog (pc + 1) { st with stack := v :: st.stack }
      | .pop r =>
        match st.stack with
        | [] => none
        | v :: s' =>
          (st.setReg r v).bind fun st1 =>
            run fuel prog (pc + 1) { st1 with stack := s' }
      | .ret => some st
      | _ => none

/-! ## Auxiliary lemmas -/

/-- All generated-label counter values an instruction sequence mentions,
whether as a label definition or as a jump target. -/
def labels_of (code : List Instr) : List Nat :=
  code.filterMap fun i =>
    match i with
    | .label n => some n
    | .jmp n => some n
    | .je n => some n
    | .jne n => some n
    | _ => none

theorem labels_of_append (a b : List Instr) :
    labels_of (a ++ b) = labels_of a ++ labels_of b := by
  simp [labels_of, List.filterMap_append]

/-- Unary-operator code mentions no labels. -/
theorem labels_of_unary (op : UnaryOperator) :
    labels_of (UnaryOperator.emit op) = [] := by
  cases op <;> rfl

/-- Binary-operator code mentions no labels. -/
theorem labels_of_binop (op : BinaryOperator) (opc : List Instr)
    (h : BinaryOperator.emit op = .ok opc) : labels_of opc = [] := by
  cases op <;> simp [BinaryOperator.emit] at h <;> simp [← h, labels_of]

/-- Unfolding of `Expression::emit` on a non-logical binary node. -/
theorem emit_binary_nonlogical_eq (op : BinaryOperator) (e1 e2 : Expression)
    (vmap : VMap) (si lc : Nat) (h1 : op ≠ .And) (h2 : op ≠ .Or) :
    (Expression.Binary op e1 e2).emit vmap si lc =
      (e1.emit vmap si lc).bind fun (c1, lc1) =>
        (e2.emit vmap si lc1).bind fun (c2, lc2) =>
          (BinaryOperator.emit op).bind fun opcode =>
            .ok (c1 ++ [.push .rax] ++ c2 ++ [.pop .rcx] ++ opcode, lc2) := by
  simp [Expression.emit, h1, h2]

/-- Unfolding of `Expression::emit` on a logical `And` node. -/
theorem emit_and_eq (e1 e2 : Expression) (vmap : VMap) (si lc : Nat) :
    (Expression.Binary .And e1 e2).emit vmap si lc =
      (e1.emit vmap si lc).bind fun (c1, lc1) =>
        (e2.emit vmap si lc1).bind fun (c2, lc2) =>
          .ok (c1 ++ [.cmpImm .rax 0, .jne lc2, .jmp (lc2 + 1), .label lc2]
               ++ c2
               ++ [.cmpImm .rax 0, .movImm .rax 0, .setne, .label (lc2 + 1)],
            lc2 + 2) := by
  simp [Expression.emit]

/-- Unfolding of `Expression::emit` on a logical `Or` node. -/
theorem emit_or_eq (e1 e2 : Expression) (vmap : VMap) (si lc : Nat) :
    (Expression.Binary .Or e1 e2).emit vmap si lc =
      (e1.emit vmap si lc).bind fun (c1, lc1) =>
        (e2.emit vmap si lc1).bind fun (c2, lc2) =>
          .ok (c1 ++ [.cmpImm .rax 0, .je lc2, .jmp (lc2 + 1), .label lc2]
               ++ c2
               ++ [.cmpImm .rax 0, .movImm .rax 0, .setne, .label (lc2 + 1)],
            lc2 + 2) := by
  simp [Expression.emit]

theorem mem_labels_of {n : Nat} {code : List Instr} :
    n ∈ labels_of code ↔
      ∃ i ∈ code,
        (match i with
         | .label m => some m
         | .jmp m => some m
         | .je m => some m
         | .jne m => some m
         | _ => none) = some n := by
  simp [labels_of, List.mem_filterMap]

/-- Label range of expression emission: the counter never decreases, and
every label mentioned by the emitted code was generated in the interval
between the starting and the final counter. -/
theorem emit_label_range (e : Expression) :
    ∀ (vmap : VMap) (si lc : Nat) (c : List Instr) (lc' : Nat),
      e.emit vmap si lc = .ok (c, lc') →
        lc ≤ lc' ∧ ∀ n ∈ labels_of c, lc ≤ n ∧ n < lc' := by
  induction e with
  | Constant c =>
    intro vmap si lc code lc' h
    simp only [Expression.emit, EmResult.ok.injEq, Prod.mk.injEq] at h
    obtain ⟨hc, hl⟩ := h
    subst hc hl
    exact ⟨le_rfl, by intro n hn; simp [labels_of] at hn⟩
  | Var s =>
    intro vmap si lc code lc' h
    simp only [Expression.emit] at h
    cases hg : VMap.get vmap s with
    | none => rw [hg] at h; exact absurd h (by simp)
    | some off =>
      rw [hg] at h
      simp only [EmResult.ok.injEq, Prod.mk.injEq] at h
      obtain ⟨hc, hl⟩ := h
      subst hc hl
      exact ⟨le_rfl, by intro n hn; simp [labels_of] at hn⟩
  | Unary op e ih =>
    intro vmap si lc code lc' h
    simp only [Expression.emit] at h
    cases he : e.emit vmap si lc with
    | ok r =>
      obtain ⟨c1, lc1⟩ := r
      rw [he] at h
      simp only [EmResult.bind, EmResult.ok.injEq, Prod.mk.injEq] at h
      obtain ⟨hc, hl⟩ := h
      subst hc hl
      obtain ⟨h1, h2⟩ := ih vmap si lc c1 lc1 he
      refine ⟨h1, ?_⟩
      intro n hn
      rw [labels_of_append, labels_of_unary, List.append_nil] at hn
      exact h2 n hn
    | err e' => rw [he] at h; exact absurd h (by simp [EmResult.bind])
    | panicked => rw [he] at h; exact absurd h (by simp [EmResult.bind])
  | Assign v e ih =>
    intro vmap si lc code lc' h
    simp only [Expression.emit] at h
    cases he : e.emit vmap si lc with
    | ok r =>
      obtain ⟨c1, lc1⟩ := r
      rw [he] at h
      simp only [EmResult.bind] at h
      cases hg : VMap.get vmap v with
      | none => rw [hg] at h; exact absurd h (by simp)
      | some off =>
        rw [hg] at h
        simp only [EmResult.ok.injEq, Prod.mk.injEq] at h
        obtain ⟨hc, hl⟩ := h
        subst hc hl
        obtain ⟨h1, h2⟩ := ih vmap si lc c1 lc1 he
        refine ⟨h1, ?_⟩
        intro n hn
        rw [labels_of_append, show labels_of [Instr.movStore off .rax] = []
          from rfl, List.append_nil] at hn
        exact h2 n hn
    | err e' => rw [he] at h; exact absurd h (by simp [EmResult.bind])
    | panicked => rw [he] at h; exact absurd h (by simp [EmResult.bind])
  | Binary op e1 e2 ih1 ih2 =>
    intro vmap si lc code lc' h
    by_cases hand : op = .And
    · subst hand
      rw [emit_and_eq] at h
      cases he1 : e1.emit vmap si lc with
      | ok r1 =>
        obtain ⟨c1, lc1⟩ := r1
        rw [he1] at h
        simp only [EmResult.bind] at h
        cases he2 : e2.emit vmap si lc1 with
        | ok r2 =>
          obtain ⟨c2, lc2⟩ := r2
          rw [he2] at h
          simp only [EmResult.ok.injEq, Prod.mk.injEq] at h
          obtain ⟨hc, hl⟩ := h
          subst hc
          obtain ⟨g1, g2⟩ := ih1 vmap si lc c1 lc1 he1
          obtain ⟨g3, g4⟩ := ih2 vmap si lc1 c2 lc2 he2
          refine ⟨by omega, ?_⟩
          intro n hn
          rw [labels_of_append, labels_of_append, labels_of_append,
            show labels_of [Instr.cmpImm .rax 0, Instr.jne lc2,
              Instr.jmp (lc2 + 1), Instr.label lc2] = [lc2, lc2 + 1, lc2]
              from rfl,
            show labels_of [Instr.cmpImm .rax 0, Instr.movImm .rax 0,
              Instr.setne, Instr.label (lc2 + 1)] = [lc2 + 1] from rfl] at hn
          simp only [List.mem_append, List.mem_cons, List.not_mem_nil,
            or_false] at hn
          rcases hn with ((h' | h') | h') | h'
          · have := g2 n h'; omega
          · rcases h' with h'' | h'' | h'' <;> omega
          · have := g4 n h'; omega
          · omega
        | err e' => rw [he2] at h; exact absurd h (by simp [EmResult.bind])
        | panicked => rw [he2] at h; exact absurd h (by simp [EmResult.bind])
      | err e' => rw [he1] at h; exact absurd h (by simp [EmResult.bind])
      | panicked => rw [he1] at h; exact absurd h (by simp [EmResult.bind])
    · by_cases hor : op = .Or
      · subst hor
        rw [emit_or_eq] at h
        cases he1 : e1.emit vmap si lc with
        | ok r1 =>
          obtain ⟨c1, lc1⟩ := r1
          rw [he1] at h
          simp only [EmResult.bind] at h
          cases he2 : e2.emit vmap si lc1 with
          | ok r2 =>
            obtain ⟨c2, lc2⟩ := r2
            rw [he2] at h
            simp only [EmResult.ok.injEq, Prod.mk.injEq] at h
            obtain ⟨hc, hl⟩ := h
            subst hc
            obtain ⟨g1, g2⟩ := ih1 vmap si lc c1 lc1 he1
            obtain ⟨g3, g4⟩ := ih2 vmap si lc1 c2 lc2 he2
            refine ⟨by omega, ?_⟩
            intro n hn
            rw [labels_of_append, labels_of_append, labels_of_append,
              show labels_of [Instr.cmpImm .rax 0, Instr.je lc2,
                Instr.jmp (lc2 + 1), Instr.label lc2] = [lc2, lc2 + 1, lc2]
                from rfl,
              show labels_of [Instr.cmpImm .rax 0, Instr.movImm .rax 0,
                Instr.setne, Instr.label (lc2 + 1)] = [lc2 + 1] from rfl] at hn
            simp only [List.mem_append, List.mem_cons, List.not_mem_nil,
              or_false] at hn
            rcases hn with ((h' | h') | h') | h'
            · have := g2 n h'; omega
            · rcases h' with h'' | h'' | h'' <;> omega
            · have := g4 n h'; omega
            · omega
          | err e' => rw [he2] at h; exact absurd h (by simp [EmResult.bind])
          | panicked => rw [he2] at h; exact absurd h (by simp [EmResult.bind])
        | err e' => rw [he1] at h; exact absurd h (by simp [EmResult.bind])
        | panicked => rw [he1] at h; exact absurd h (by simp [EmResult.bind])
      · rw [emit_binary_nonlogical_eq op e1 e2 vmap si lc hand hor] at h
        cases he1 : e1.emit vmap si lc with
        | ok r1 =>
          obtain ⟨c1, lc1⟩ := r1
          rw [he1] at h
          simp only [EmResult.bind] at h
          cases he2 : e2.emit vmap si lc1 with
          | ok r2 =>
            obtain ⟨c2, lc2⟩ := r2
            rw [he2] at h
            simp only [EmResult.bind] at h
            cases hop : BinaryOperator.emit op with
            | ok opc =>
              rw [hop] at h
              simp only [EmResult.bind, EmResult.ok.injEq, Prod.mk.injEq] at h
              obtain ⟨hc, hl⟩ := h
              subst hc
              obtain ⟨g1, g2⟩ := ih1 vmap si lc c1 lc1 he1
              obtain ⟨g3, g4⟩ := ih2 vmap si lc1 c2 lc2 he2
              refine ⟨by omega, ?_⟩
              intro n hn
              rw [labels_of_append, labels_of_append, labels_of_append,
                labels_of_append, labels_of_binop op opc hop,
                show labels_of [Instr.push .rax] = [] from rfl,
                show labels_of [Instr.pop .rcx] = [] from rfl] at hn
              simp only [List.append_nil] at hn
              rw [List.mem_append] at hn
              rcases hn with h' | h'
              · have := g2 n h'; omega
              · have := g4 n h'; omega
            | err e' => rw [hop] at h; exact absurd h (by simp [EmResult.bind])
            | panicked => rw [hop] at h; exact absurd h (by simp [EmResult.bind])
          | err e' => rw [he2] at h; exact absurd h (by simp [EmResult.bind])
          | panicked => rw [he2] at h; exact absurd h (by simp [EmResult.bind])
        | err e' => rw [he1] at h; exact absurd h (by simp [EmResult.bind])
        | panicked => rw [he1] at h; exact absurd h (by simp [EmResult.bind])

/-- Every operator in the dispatch table has precedence at least 1, so at
minimum precedence 1 the below-minimum break never fires. -/
theorem operator_info_prec_pos (tok : Token) (s : Symb) (p : Nat)
    (a : Associativity) (pb : Token)
    (h : operator_info tok = some (s, p, a, pb)) : 1 ≤ p := by
  cases tok <;> simp [operator_info] at h <;> omega

/-- When the precedence-climbing loop at minimum precedence 1 returns
successfully, the head of the remaining stream is a token outside the
operator dispatch table (the loop consumes every operator at minimum 1, and
breaks only by pushing back a non-operator token; the end of the stream is an
error, not a success). -/
theorem parse_expr_loop_stops (fuel : Nat) :
    ∀ (lhs : Expression) (ts : List Token) (e : Expression) (ts' : List Token),
      parse_expr_loop fuel lhs 1 ts = .ok e ts' →
        ∃ tok rest, ts' = tok :: rest ∧ operator_info tok = none := by
  induction fuel with
  | zero =>
    intro lhs ts e ts' h
    simp [parse_expr_loop] at h
  | succ f ih =>
    intro lhs ts e ts' h
    match ts with
    | [] => simp [parse_expr_loop] at h
    | tok :: rest =>
      rw [parse_expr_loop] at h
      cases hoi : operator_info tok with
      | none =>
        rw [hoi] at h
        simp only [PResult.ok.injEq] at h
        exact ⟨tok, rest, h.2.symm, hoi⟩
      | some info =>
        obtain ⟨op, prec, assoc, pbtok⟩ := info
        rw [hoi] at h
        simp only at h
        have hp := operator_info_prec_pos tok op prec assoc pbtok hoi
        rw [if_neg (by omega : ¬ prec < 1)] at h
        cases hpe : parse_expr f rest (if assoc = Associativity.Left then prec + 1 else prec) with
        | ok rhs rest1 =>
          rw [hpe] at h
          simp only [PResult.bind] at h
          cases op with
          | Bin bop => simp only at h; exact ih _ _ _ _ h
          | Assign s =>
            cases lhs with
            | Var v =>
              cases s with
              | none => simp only at h; exact ih _ _ _ _ h
              | some st =>
                simp only at h
                cases hco : compound_op st with
                | some bop => rw [hco] at h; simp only at h; exact ih _ _ _ _ h
                | none => rw [hco] at h; exact absurd h (by simp)
            | Constant c => exact absurd h (by simp)
            | Unary uop e1 => exact absurd h (by simp)
            | Binary bop e1 e2 => exact absurd h (by simp)
            | Assign v e1 => exact absurd h (by simp)
        | err e1 r1 => rw [hpe] at h; exact absurd h (by simp [PResult.bind])
        | panicked => rw [hpe] at h; exact absurd h (by simp [PResult.bind])
        | fuelOut => rw [hpe] at h; exact absurd h (by simp [PResult.bind])

/-- Success of `parse_expr` at minimum precedence 1 leaves a non-operator
token at the head of the remaining stream. -/
theorem parse_expr_stops (fuel : Nat) (ts : List Token) (e : Expression)
    (ts' : List Token) (h : parse_expr fuel ts 1 = .ok e ts') :
    ∃ tok rest, ts' = tok :: rest ∧ operator_info tok = none := by
  match fuel with
  | 0 => simp [parse_expr] at h
  | f+1 =>
    rw [parse_expr] at h
    cases ha : parse_atom f ts with
    | ok lhs rest =>
      rw [ha] at h
      simp only [PResult.bind] at h
      exact parse_expr_loop_stops f lhs rest e ts' h
    | err e1 r1 => rw [ha] at h; exact absurd h (by simp [PResult.bind])
    | panicked => rw [ha] at h; exact absurd h (by simp [PResult.bind])
    | fuelOut => rw [ha] at h; exact absurd h (by simp [PResult.bind])

/-- A binary operator other than logical `And`/`Or` always has operator
code. -/
theorem binop_emit_ok (op : BinaryOperator) (h1 : op ≠ .And) (h2 : op ≠ .Or) :
    ∃ opc, BinaryOperator.emit op = .ok opc := by
  cases op <;> simp [BinaryOperator.emit] <;> simp_all

/-- Expression emission either succeeds or fails with `UndeclaredVariable`:
no other error variant, and no panic, can come out of `Expression::emit`. -/
theorem expr_emit_classify (e : Expression) :
    ∀ (vmap : VMap) (si lc : Nat),
      (∃ r, e.emit vmap si lc = .ok r) ∨
        (∃ w, e.emit vmap si lc = .err (.UndeclaredVariable w)) := by
  induction e with
  | Constant c => intro vmap si lc; exact Or.inl ⟨_, rfl⟩
  | Var s =>
    intro vmap si lc
    cases hg : VMap.get vmap s with
    | some off =>
      exact Or.inl ⟨([Instr.movLoad .rax off], lc), by
        simp [Expression.emit, hg]⟩
    | none => exact Or.inr ⟨s, by simp [Expression.emit, hg]⟩
  | Unary op e ih =>
    intro vmap si lc
    rcases ih vmap si lc with ⟨⟨c1, lc1⟩, he⟩ | ⟨w, he⟩
    · exact Or.inl ⟨(c1 ++ UnaryOperator.emit op, lc1), by
        simp [Expression.emit, he, EmResult.bind]⟩
    · exact Or.inr ⟨w, by simp [Expression.emit, he, EmResult.bind]⟩
  | Assign v e ih =>
    intro vmap si lc
    rcases ih vmap si lc with ⟨⟨c1, lc1⟩, he⟩ | ⟨w, he⟩
    · cases hg : VMap.get vmap v with
      | some off =>
        exact Or.inl ⟨(c1 ++ [Instr.movStore off .rax], lc1), by
          simp [Expression.emit, he, hg, EmResult.bind]⟩
      | none =>
        exact Or.inr ⟨v, by simp [Expression.emit, he, hg, EmResult.bind]⟩
    · exact Or.inr ⟨w, by simp [Expression.emit, he, EmResult.bind]⟩
  | Binary op e1 e2 ih1 ih2 =>
    intro vmap si lc
    by_cases hand : op = .And
    · subst hand
      rcases ih1 vmap si lc with ⟨⟨c1, lc1⟩, he1⟩ | ⟨w, he1⟩
      · rcases ih2 vmap si lc1 with ⟨⟨c2, lc2⟩, he2⟩ | ⟨w, he2⟩
        · refine Or.inl ⟨(c1 ++ [Instr.cmpImm .rax 0, Instr.jne lc2,
            Instr.jmp (lc2 + 1), Instr.label lc2] ++ c2
            ++ [Instr.cmpImm .rax 0, Instr.movImm .rax 0, Instr.setne,
              Instr.label (lc2 + 1)], lc2 + 2), ?_⟩
          rw [emit_and_eq, he1]
          simp only [EmResult.bind]
          rw [he2]
        · refine Or.inr ⟨w, ?_⟩
          rw [emit_and_eq, he1]
          simp only [EmResult.bind]
          rw [he2]
      · refine Or.inr ⟨w, ?_⟩
        rw [emit_and_eq, he1]
        rfl
    · by_cases hor : op = .Or
      · subst hor
        rcases ih1 vmap si lc with ⟨⟨c1, lc1⟩, he1⟩ | ⟨w, he1⟩
        · rcases ih2 vmap si lc1 with ⟨⟨c2, lc2⟩, he2⟩ | ⟨w, he2⟩
          · refine Or.inl ⟨(c1 ++ [Instr.cmpImm .rax 0, Instr.je lc2,
              Instr.jmp (lc2 + 1), Instr.label lc2] ++ c2
              ++ [Instr.cmpImm .rax 0, Instr.movImm .rax 0, Instr.setne,
                Instr.label (lc2 + 1)], lc2 + 2), ?_⟩
            rw [emit_or_eq, he1]
            simp only [EmResult.bind]
            rw [he2]
          · refine Or.inr ⟨w, ?_⟩
            rw [emit_or_eq, he1]
            simp only [EmResult.bind]
            rw [he2]
        · refine Or.inr ⟨w, ?_⟩
          rw [emit_or_eq, he1]
          rfl
      · obtain ⟨opc, hop⟩ := binop_emit_ok op hand hor
        rcases ih1 vmap si lc with ⟨⟨c1, lc1⟩, he1⟩ | ⟨w, he1⟩
        · rcases ih2 vmap si lc1 with ⟨⟨c2, lc2⟩, he2⟩ | ⟨w, he2⟩
          · refine Or.inl ⟨(c1 ++ [Instr.push .rax] ++ c2 ++ [Instr.pop .rcx]
              ++ opc, lc2), ?_⟩
            rw [emit_binary_nonlogical_eq op e1 e2 vmap si lc hand hor, he1]
            simp only [EmResult.bind]
            rw [he2]
            simp only [EmResult.bind]
            rw [hop]
          · refine Or.inr ⟨w, ?_⟩
            rw [emit_binary_nonlogical_eq op e1 e2 vmap si lc hand hor, he1]
            simp only [EmResult.bind]
            rw [he2]
        · refine Or.inr ⟨w, ?_⟩
          rw [emit_binary_nonlogical_eq op e1 e2 vmap si lc hand hor, he1]
          rfl

/-- Splitting the body fold over an append: the statements of the first part
run first, threading binder, stack index and label counter into the second
part. -/
theorem emit_body_append (xs ys : List Statement) :
    ∀ (vmap : VMap) (si lc : Nat),
      emit_body (xs ++ ys) vmap si lc =
        (emit_body xs vmap si lc).bind fun (c1, v1, s1, l1) =>
          (emit_body ys v1 s1 l1).bind fun (c2, v2, s2, l2) =>
            .ok (c1 ++ c2, v2, s2, l2) := by
  induction xs with
  | nil =>
    intro vmap si lc
    simp only [List.nil_append, emit_body, EmResult.bind]
    cases h : emit_body ys vmap si lc with
    | ok r => obtain ⟨c2, v2, s2, l2⟩ := r; simp [EmResult.bind]
    | err e => simp [EmResult.bind]
    | panicked => simp [EmResult.bind]
  | cons s xs ih =>
    intro vmap si lc
    simp only [List.cons_append, emit_body]
    cases hs : s.emit vmap si lc with
    | ok r =>
      obtain ⟨c, v1, s1, l1⟩ := r
      simp only [EmResult.bind]
      simp only [List.append_eq]
      rw [ih v1 s1 l1]
      cases hxs : emit_body xs v1 s1 l1 with
      | ok r2 =>
        obtain ⟨c2, v2, s2, l2⟩ := r2
        simp only [EmResult.bind]
        cases hys : emit_body ys v2 s2 l2 with
        | ok r3 =>
          obtain ⟨c3, v3, s3, l3⟩ := r3
          simp [EmResult.bind, List.append_assoc]
        | err e => simp [EmResult.bind]
        | panicked => simp [EmResult.bind]
      | err e => simp [EmResult.bind]
      | panicked => simp [EmResult.bind]
    | err e => simp [EmResult.bind]
    | panicked => simp [EmResult.bind]

/-- Inserting an absent key preserves every existing binding. -/
theorem VMap.get_insert_of_get (vmap : VMap) (s : String) (si : Nat)
    (k : String) (v : Nat) (hc : VMap.contains_key vmap s = false)
    (hv : VMap.get vmap k = some v) :
    VMap.get (VMap.insert vmap s si) k = some v := by
  have hall : ∀ p ∈ vmap, (p.1 == s) = false := by
    intro p hp
    by_contra hne
    have : vmap.any (fun p => p.1 == s) = true :=
      List.any_eq_true.mpr ⟨p, hp, by simpa using hne⟩
    rw [VMap.contains_key] at hc
    rw [hc] at this
    exact Bool.false_ne_true this
  obtain ⟨p, hfind⟩ : ∃ p, vmap.find? (fun p => p.1 == k) = some p := by
    rw [VMap.get] at hv
    cases hf : vmap.find? (fun p => p.1 == k) with
    | some p => exact ⟨p, rfl⟩
    | none => rw [hf] at hv; simp at hv
  have hpk : (p.1 == k) = true := by
    have h' := List.find?_some hfind
    simpa using h'
  have hpmem : p ∈ vmap := List.mem_of_find?_eq_some hfind
  have hsk : (s == k) = false := by
    have hps : (p.1 == s) = false := hall p hpmem
    by_contra hne
    have hsk' : s = k := by
      cases h : (s == k) with
      | true => exact eq_of_beq h
      | false => exact absurd h hne
    rw [eq_of_beq hpk, hsk'] at hps
    simp at hps
  rw [VMap.insert, VMap.get, List.find?_cons_of_neg _ (by simpa using hsk)]
  rw [VMap.get] at hv
  exact hv

/-- Statement emission never removes a binder entry. -/
theorem statement_emit_vmap_mono (s : Statement) (vmap : VMap) (si lc : Nat)
    (c : List Instr) (vmap' : VMap) (si' lc' : Nat)
    (h : s.emit vmap si lc = .ok (c, vmap', si', lc')) :
    ∀ k v, VMap.get vmap k = some v → VMap.get vmap' k = some v := by
  intro k v hv
  cases s with
  | Declaration nm init =>
    rw [Statement.emit] at h
    cases hc : VMap.contains_key vmap nm with
    | true => rw [hc] at h; simp at h
    | false =>
      rw [hc] at h
      simp only [Bool.false_eq_true, if_false] at h
      cases init with
      | none =>
        simp only at h
        simp only [EmResult.ok.injEq, Prod.mk.injEq] at h
        obtain ⟨-, hm, -, -⟩ := h
        rw [← hm]
        exact VMap.get_insert_of_get vmap nm si k v hc hv
      | some e =>
        simp only at h
        cases he : e.emit (VMap.insert vmap nm si) (si + 8) lc with
        | ok r =>
          obtain ⟨code, lc1⟩ := r
          rw [he] at h
          simp only [EmResult.bind, EmResult.ok.injEq, Prod.mk.injEq] at h
          obtain ⟨-, hm, -, -⟩ := h
          rw [← hm]
          exact VMap.get_insert_of_get vmap nm si k v hc hv
        | err e1 => rw [he] at h; exact absurd h (by simp [EmResult.bind])
        | panicked => rw [he] at h; exact absurd h (by simp [EmResult.bind])
  | Expression e =>
    rw [Statement.emit] at h
    cases he : e.emit vmap si lc with
    | ok r =>
      obtain ⟨code, lc1⟩ := r
      rw [he] at h
      simp only [EmResult.bind, EmResult.ok.injEq, Prod.mk.injEq] at h
      obtain ⟨-, hm, -, -⟩ := h
      rw [← hm]
      exact hv
    | err e1 => rw [he] at h; exact absurd h (by simp [EmResult.bind])
    | panicked => rw [he] at h; exact absurd h (by simp [EmResult.bind])
  | Return e =>
    rw [Statement.emit] at h
    cases he : e.emit vmap si lc with
    | ok r =>
      obtain ⟨code, lc1⟩ := r
      rw [he] at h
      simp only [EmResult.bind, EmResult.ok.injEq, Prod.mk.injEq] at h
      obtain ⟨-, hm, -, -⟩ := h
      rw [← hm]
      exact hv
    | err e1 => rw [he] at h; exact absurd h (by simp [EmResult.bind])
    | panicked => rw [he] at h; exact absurd h (by simp [EmResult.bind])

/-- Body emission never removes a binder entry. -/
theorem emit_body_vmap_mono (stmts : List Statement) :
    ∀ (vmap : VMap) (si lc : Nat) (c : List Instr) (vmap' : VMap)
      (si' lc' : Nat),
      emit_body stmts vmap si lc = .ok (c, vmap', si', lc') →
        ∀ k v, VMap.get vmap k = some v → VMap.get vmap' k = some v := by
  induction stmts with
  | nil =>
    intro vmap si lc c vmap' si' lc' h k v hv
    simp only [emit_body, EmResult.ok.injEq, Prod.mk.injEq] at h
    obtain ⟨-, hm, -, -⟩ := h
    rw [← hm]
    exact hv
  | cons s rest ih =>
    intro vmap si lc c vmap' si' lc' h k v hv
    rw [emit_body] at h
    cases hs : s.emit vmap si lc with
    | ok r =>
      obtain ⟨c1, v1, s1, l1⟩ := r
      rw [hs] at h
      simp only [EmResult.bind] at h
      cases hr : emit_body rest v1 s1 l1 with
      | ok r2 =>
        obtain ⟨c2, v2, s2, l2⟩ := r2
        rw [hr] at h
        simp only [EmResult.bind, EmResult.ok.injEq, Prod.mk.injEq] at h
        obtain ⟨-, hm, -, -⟩ := h
        rw [← hm]
        exact ih v1 s1 l1 c2 v2 s2 l2 hr k v
          (statement_emit_vmap_mono s vmap si lc c1 v1 s1 l1 hs k v hv)
      | err e1 => rw [hr] at h; exact absurd h (by simp [EmResult.bind])
      | panicked => rw [hr] at h; exact absurd h (by simp [EmResult.bind])
    | err e1 => rw [hs] at h; exact absurd h (by simp [EmResult.bind])
    | panicked => rw [hs] at h; exact absurd h (by simp [EmResult.bind])

/-! ## Claims -/

/-- C1: emitting `Binary(And, l, r)` or `Binary(Or, l, r)` produces the left
operand's code, a compare of `rax` against zero, a conditional jump
(nonzero-taken for And, zero-taken for Or) to a fresh label heading the right
operand's code, an unconditional jump to a fresh shared exit label on the
short-circuit path, and after the right operand's code a 0/1 normalization of
`rax` before the exit label.  The two labels are the next two values of the
label generator, are distinct from each other, and are distinct from every
label generated inside either operand's code, so the right operand's code
lies only on the non-short-circuit path. -/
theorem C1_short_circuit_emission (l r : Expression) (vmap : VMap)
    (si lc : Nat) (c1 : List Instr) (lc1 : Nat) (c2 : List Instr) (lc2 : Nat)
    (h1 : l.emit vmap si lc = .ok (c1, lc1))
    (h2 : r.emit vmap si lc1 = .ok (c2, lc2)) :
    ((Expression.Binary .And l r).emit vmap si lc =
      .ok (c1 ++ [.cmpImm .rax 0, .jne lc2, .jmp (lc2 + 1), .label lc2]
           ++ c2 ++ [.cmpImm .rax 0, .movImm .rax 0, .setne, .label (lc2 + 1)],
        lc2 + 2)) ∧
    ((Expression.Binary .Or l r).emit vmap si lc =
      .ok (c1 ++ [.cmpImm .rax 0, .je lc2, .jmp (lc2 + 1), .label lc2]
           ++ c2 ++ [.cmpImm .rax 0, .movImm .rax 0, .setne, .label (lc2 + 1)],
        lc2 + 2)) ∧
    lc2 ≠ lc2 + 1 ∧
    (∀ n ∈ labels_of c1, n ≠ lc2 ∧ n ≠ lc2 + 1) ∧
    (∀ n ∈ labels_of c2, n ≠ lc2 ∧ n ≠ lc2 + 1) := by
  obtain ⟨g1, g2⟩ := emit_label_range l vmap si lc c1 lc1 h1
  obtain ⟨g3, g4⟩ := emit_label_range r vmap si lc1 c2 lc2 h2
  refine ⟨?_, ?_, by omega, ?_, ?_⟩
  · rw [emit_and_eq, h1]
    simp only [EmResult.bind]
    rw [h2]
  · rw [emit_or_eq, h1]
    simp only [EmResult.bind]
    rw [h2]
  · intro n hn
    have := g2 n hn
    omega
  · intro n hn
    have := g4 n hn
    omega

/-- Witness for C1 at the concrete operands `1` and `2`. -/
theorem C1_short_circuit_emission_witness :
    (Expression.Binary .And (.Constant (.Int 1))
        (.Constant (.Int 2))).emit [] 8 0 =
      .ok ([Instr.movImm .rax 1]
           ++ [.cmpImm .rax 0, .jne 0, .jmp 1, .label 0]
           ++ [Instr.movImm .rax 2]
           ++ [.cmpImm .rax 0, .movImm .rax 0, .setne, .label 1], 2) :=
  (C1_short_circuit_emission (.Constant (.Int 1)) (.Constant (.Int 2)) [] 8 0
    [Instr.movImm .rax 1] 0 [Instr.movImm .rax 2] 0 rfl rfl).1

/-- C2: the claim fails on the code.  In the precedence-climbing loop the
`LessThanEqual` dispatch arm names `Token.LessThan` as its push-back token,
so when a `LessThanEqual` token arrives below the minimum precedence the
parser pushes back a `LessThan` token it never consumed; consequently the
token sequence of `a * b <= c ;` parses to a `LessThan` node, not the claimed
`LessThanEqual` node. -/
theorem C2_pushback_bug_lessthanequal :
    operator_info Token.LessThanEqual =
      some (.Bin .LessThanEqual, 9, .Left, Token.LessThan) ∧
    Expression.parse 20 [Token.Identifier "a", Token.Multiplication,
      Token.Identifier "b", Token.LessThanEqual, Token.Identifier "c",
      Token.Semicolon] =
      .ok (.Binary .LessThan
        (.Binary .Multiplication (.Var "a") (.Var "b")) (.Var "c"))
        [Token.Semicolon] ∧
    Expression.parse 20 [Token.Identifier "a", Token.Multiplication,
      Token.Identifier "b", Token.LessThanEqual, Token.Identifier "c",
      Token.Semicolon] ≠
      .ok (.Binary .LessThanEqual
        (.Binary .Multiplication (.Var "a") (.Var "b")) (.Var "c"))
        [Token.Semicolon] :=
  ⟨rfl, by decide, by decide⟩

/-- C3: the claim fails on the code.  The precedence-climbing dispatch has no
arm for the modulo, bitwise or shift tokens, so none of them is parseable as
an infix operator; the token sequence of `return -5 % 3 ;` fails with
`UnexpectedToken` at the modulo token (the expression parser stops before it
and the statement parser then demands a semicolon).  The emitted modulo code
itself does sign-extend the dividend (`cqo` after moving the left operand
into `rax`) and keeps the remainder (`mov rax, rdx`), as the claim
describes. -/
theorem C3_modulo_not_infix_parseable :
    Statement.parse 20 [Token.Keyword .Return, Token.Negative,
      Token.Literal (.Int 5), Token.Modulo, Token.Literal (.Int 3),
      Token.Semicolon] =
      .err (.UnexpectedToken "" [Token.Semicolon] Token.Modulo
        [Token.Literal (.Int 3), Token.Semicolon]) [] ∧
    (∀ t ∈ [Token.Modulo, Token.BitAnd, Token.BitOr, Token.BitXor,
      Token.ShiftLeft, Token.ShiftRight], operator_info t = none) ∧
    BinaryOperator.emit .Modulo =
      .ok [.movReg .rbx .rax, .movReg .rax .rcx, .cqo, .idiv .rbx,
        .movReg .rax .rdx] :=
  ⟨by decide, by decide, rfl⟩

/-- C4: the claim fails on the code.  `consume_token` and the function-header
parser read the stream with `Option::unwrap`, which panics on an exhausted
stream instead of returning `UnexpectedEnd`: parsing the empty token stream
panics at the leading `int` keyword, and a stream ending right after `int`
panics at the function name.  The statement and expression-atom paths do
return `UnexpectedEnd`, as the last two conjuncts show. -/
theorem C4_exhausted_stream_panics :
    parse 20 ([] : List Token) = .panicked ∧
    Function.parse 20 [Token.Keyword .Int] = .panicked ∧
    consume_token [] Token.Semicolon = .panicked ∧
    Statement.parse 20 ([] : List Token) =
      .err (.UnexpectedEnd "Keyword") [] ∧
    parse_atom 20 ([] : List Token) = .err (.UnexpectedEnd "Expression") [] :=
  ⟨by decide, by decide, rfl, rfl, by decide⟩

/-- Entering the expression parser at an identifier atom: the identifier
becomes the left-hand side and the climb continues on the rest. -/
theorem parse_expr_ident_eq (f : Nat) (x : String) (ts : List Token)
    (min_precedence : Nat) :
    parse_expr (f + 2) (Token.Identifier x :: ts) min_precedence =
      parse_expr_loop (f + 1) (.Var x) min_precedence ts := by
  rw [parse_expr, parse_atom]
  simp only [PResult.bind]

/-- Folding a compound assignment in the climb loop: with a `Var` on the
left, an assignment-precedence token desugars to
`Assign(v, Binary(op, Var(v), rhs))` and the loop then stops at the
non-operator token that follows the right-hand side. -/
theorem parse_expr_loop_assign_compound (f : Nat) (v : String)
    (atok st : Token) (bop : BinaryOperator) (pb : Token) (rest : List Token)
    (e : Expression) (rest' : List Token)
    (hoi : operator_info atok = some (.Assign (some st), 1, .Right, pb))
    (hco : compound_op st = some bop)
    (h : parse_expr f rest 1 = .ok e rest') :
    parse_expr_loop (f + 1) (.Var v) 1 (atok :: rest) =
      .ok (.Assign v (.Binary bop (.Var v) e)) rest' := by
  obtain ⟨tok, rest'', htok, hnone⟩ := parse_expr_stops f rest e rest' h
  cases f with
  | zero => simp [parse_expr] at h
  | succ f' =>
    rw [parse_expr_loop, hoi]
    simp only
    rw [if_neg (lt_irrefl 1), if_neg (by decide :
      ¬ Associativity.Right = Associativity.Left), h]
    simp only [PResult.bind]
    rw [hco]
    simp only
    subst htok
    rw [parse_expr_loop, hnone]

/-- Folding a plain assignment in the climb loop. -/
theorem parse_expr_loop_assign_plain (f : Nat) (v : String) (atok pb : Token)
    (rest : List Token) (e : Expression) (rest' : List Token)
    (hoi : operator_info atok = some (.Assign none, 1, .Right, pb))
    (h : parse_expr f rest 1 = .ok e rest') :
    parse_expr_loop (f + 1) (.Var v) 1 (atok :: rest) =
      .ok (.Assign v e) rest' := by
  obtain ⟨tok, rest'', htok, hnone⟩ := parse_expr_stops f rest e rest' h
  cases f with
  | zero => simp [parse_expr] at h
  | succ f' =>
    rw [parse_expr_loop, hoi]
    simp only
    rw [if_neg (lt_irrefl 1), if_neg (by decide :
      ¬ Associativity.Right = Associativity.Left), h]
    simp only [PResult.bind]
    subst htok
    rw [parse_expr_loop, hnone]

/-- C5: for every identifier `x`, every right-hand side whose tokens parse to
an expression `e`, and every compound-assignment operator, the token sequence
`x op= rhs` parses to `Assign(x, Binary(op, Var(x), e))` with `op` the
corresponding bare binary operator (the first conjunct lists all ten
correspondences explicitly), and `x = rhs` parses to `Assign(x, e)`;
concretely, `x += 5` and `x = x + 5` parse to the same tree.  If the
left-hand side that an assignment-precedence operator folds over is not a
`Var` node, the parse instead fails with `InvalidSyntax` (for every
assignment-family token and every non-`Var` shape). -/
theorem C5_compound_assignment_desugaring :
    (∀ (f : Nat) (x : String) (rest : List Token) (e : Expression)
        (rest' : List Token) (tk : Token) (bop : BinaryOperator),
        (tk, bop) ∈ [(Token.AssignAdd, BinaryOperator.Addition),
          (Token.AssignSub, BinaryOperator.Subtraction),
          (Token.AssignMul, BinaryOperator.Multiplication),
          (Token.AssignDiv, BinaryOperator.Division),
          (Token.AssignMod, BinaryOperator.Modulo),
          (Token.AssignAnd, BinaryOperator.BitAnd),
          (Token.AssignOr, BinaryOperator.BitOr),
          (Token.AssignXor, BinaryOperator.BitXor),
          (Token.AssignShiftLeft, BinaryOperator.ShiftLeft),
          (Token.AssignShiftRight, BinaryOperator.ShiftRight)] →
        parse_expr f rest 1 = .ok e rest' →
          parse_expr (f + 2) (Token.Identifier x :: tk :: rest) 1 =
            .ok (.Assign x (.Binary bop (.Var x) e)) rest') ∧
    (∀ (f : Nat) (x : String) (rest : List Token) (e : Expression)
        (rest' : List Token),
        parse_expr f rest 1 = .ok e rest' →
          parse_expr (f + 2) (Token.Identifier x :: Token.Assign :: rest) 1 =
            .ok (.Assign x e) rest') ∧
    (∀ (f : Nat) (lhs : Expression) (atok : Token) (s : Option Token)
        (pb : Token) (rest : List Token) (e : Expression)
        (rest' : List Token),
        operator_info atok = some (.Assign s, 1, .Right, pb) →
        (∀ v, lhs ≠ .Var v) →
        parse_expr f rest 1 = .ok e rest' →
          parse_expr_loop (f + 1) lhs 1 (atok :: rest) =
            .err .InvalidSyntax rest') ∧
    (Expression.parse 20 [Token.Identifier "x", Token.AssignAdd,
        Token.Literal (.Int 5), Token.Semicolon] =
      .ok (.Assign "x" (.Binary .Addition (.Var "x")
        (.Constant (.Int 5)))) [Token.Semicolon]) ∧
    (Expression.parse 20 [Token.Identifier "x", Token.Assign,
        Token.Identifier "x", Token.Addition, Token.Literal (.Int 5),
        Token.Semicolon] =
      .ok (.Assign "x" (.Binary .Addition (.Var "x")
        (.Constant (.Int 5)))) [Token.Semicolon]) := by
  refine ⟨?_, ?_, ?_, by decide, by decide⟩
  · intro f x rest e rest' tk bop hmem h
    rw [parse_expr_ident_eq]
    fin_cases hmem <;>
      exact parse_expr_loop_assign_compound f x _ _ _ _ rest e rest' rfl
        rfl h
  · intro f x rest e rest' h
    rw [parse_expr_ident_eq]
    exact parse_expr_loop_assign_plain f x Token.Assign Token.Assign rest e
      rest' rfl h
  · intro f lhs atok s pb rest e rest' hoi hnv h
    cases f with
    | zero => simp [parse_expr] at h
    | succ f' =>
      rw [parse_expr_loop, hoi]
      simp only
      rw [if_neg (lt_irrefl 1), if_neg (by decide :
        ¬ Associativity.Right = Associativity.Left), h]
      rfl

/-- Witness for C5: the universal desugaring part applied at the concrete
compound token of shift-left assignment with right-hand side `5 ;`, and the
`InvalidSyntax` part at the concrete non-variable left-hand side `3`. -/
theorem C5_compound_assignment_desugaring_witness :
    parse_expr 12 [Token.Identifier "y", Token.AssignShiftLeft,
      Token.Literal (.Int 5), Token.Semicolon] 1 =
      .ok (.Assign "y" (.Binary .ShiftLeft (.Var "y")
        (.Constant (.Int 5)))) [Token.Semicolon] ∧
    parse_expr_loop 11 (.Constant (.Int 3)) 1 (Token.Assign ::
      Token.Literal (.Int 5) :: [Token.Semicolon]) =
      .err .InvalidSyntax [Token.Semicolon] :=
  ⟨C5_compound_assignment_desugaring.1 10 "y"
      [Token.Literal (.Int 5), Token.Semicolon] (.Constant (.Int 5))
      [Token.Semicolon] Token.AssignShiftLeft .ShiftLeft (by decide)
      (by decide),
    C5_compound_assignment_desugaring.2.2.1 10 (.Constant (.Int 3))
      Token.Assign none Token.Assign
      [Token.Literal (.Int 5), Token.Semicolon] (.Constant (.Int 5))
      [Token.Semicolon] rfl (by intro v; exact fun hc => by cases hc)
      (by decide)⟩

/-- C6: for every non-logical `Binary(op, l, r)`, the emitted code is the
left operand's code, `push rax`, the right operand's code, `pop rcx`, then
the operator's code; in the operator codes the secondary register `rcx`
(holding the left operand) is the left-hand operand of subtraction,
comparisons, shifts, division and modulo; division and modulo move the
dividend `rcx` into `rax` and sign-extend it with `cqo` into the `rdx`-`rax`
pair before `idiv`, and modulo then moves the remainder register `rdx` into
`rax`. -/
theorem C6_nonlogical_binary_protocol :
    (∀ (op : BinaryOperator) (l r : Expression) (vmap : VMap) (si lc : Nat)
        (c1 : List Instr) (lc1 : Nat) (c2 : List Instr) (lc2 : Nat)
        (opc : List Instr),
        op ≠ .And → op ≠ .Or →
        l.emit vmap si lc = .ok (c1, lc1) →
        r.emit vmap si lc1 = .ok (c2, lc2) →
        BinaryOperator.emit op = .ok opc →
          (Expression.Binary op l r).emit vmap si lc =
            .ok (c1 ++ [.push .rax] ++ c2 ++ [.pop .rcx] ++ opc, lc2)) ∧
    BinaryOperator.emit .Subtraction =
      .ok [.sub .rcx .rax, .movReg .rax .rcx] ∧
    BinaryOperator.emit .Division =
      .ok [.movReg .rbx .rax, .movReg .rax .rcx, .cqo, .idiv .rbx] ∧
    BinaryOperator.emit .Modulo =
      .ok [.movReg .rbx .rax, .movReg .rax .rcx, .cqo, .idiv .rbx,
        .movReg .rax .rdx] ∧
    BinaryOperator.emit .ShiftLeft = .ok [.shl .rcx .rax, .movReg .rax .rcx] ∧
    BinaryOperator.emit .ShiftRight = .ok [.shr .rcx .rax, .movReg .rax .rcx] ∧
    BinaryOperator.emit .LessThan =
      .ok [.cmp .rcx .rax, .movImm .rax 0, .setl] ∧
    BinaryOperator.emit .LessThanEqual =
      .ok [.cmp .rcx .rax, .movImm .rax 0, .setle] ∧
    BinaryOperator.emit .GreaterThan =
      .ok [.cmp .rcx .rax, .movImm .rax 0, .setg] ∧
    BinaryOperator.emit .GreaterThanEqual =
      .ok [.cmp .rcx .rax, .movImm .rax 0, .setge] ∧
    BinaryOperator.emit .Equal = .ok [.cmp .rcx .rax, .movImm .rax 0, .sete] ∧
    BinaryOperator.emit .NotEqual =
      .ok [.cmp .rcx .rax, .movImm .rax 0, .setne] := by
  refine ⟨?_, rfl, rfl, rfl, rfl, rfl, rfl, rfl, rfl, rfl, rfl, rfl⟩
  intro op l r vmap si lc c1 lc1 c2 lc2 opc hand hor h1 h2 hop
  rw [emit_binary_nonlogical_eq op l r vmap si lc hand hor, h1]
  simp only [EmResult.bind]
  rw [h2]
  simp only [EmResult.bind]
  rw [hop]

/-- Witness for C6: subtraction of the constants `7` and `2`. -/
theorem C6_nonlogical_binary_protocol_witness :
    (Expression.Binary .Subtraction (.Constant (.Int 7))
        (.Constant (.Int 2))).emit [] 8 0 =
      .ok ([Instr.movImm .rax 7] ++ [.push .rax] ++ [Instr.movImm .rax 2]
        ++ [.pop .rcx] ++ [.sub .rcx .rax, .movReg .rax .rcx], 0) :=
  C6_nonlogical_binary_protocol.1 .Subtraction (.Constant (.Int 7))
    (.Constant (.Int 2)) [] 8 0 [Instr.movImm .rax 7] 0
    [Instr.movImm .rax 2] 0 [.sub .rcx .rax, .movReg .rax .rcx]
    (by decide) (by decide) rfl rfl rfl

/-- C7: emitting a `Var` whose name is unbound yields `UndeclaredVariable`
for that name; emitting an `Assign` whose target is unbound yields an
`UndeclaredVariable` error (for the target, or for an unbound variable inside
the right-hand side, which is emitted first); emitting a `Declaration` whose
name is already bound yields `DuplicateDeclaration`; and the body fold emits
statements in source order, so the first statement to fail determines the
error of the whole function emission and no assembly is produced. -/
theorem C7_semantic_error_detection :
    (∀ (s : String) (vmap : VMap) (si lc : Nat), VMap.get vmap s = none →
        (Expression.Var s).emit vmap si lc = .err (.UndeclaredVariable s)) ∧
    (∀ (v : String) (e : Expression) (vmap : VMap) (si lc : Nat),
        VMap.get vmap v = none →
          ∃ w, (Expression.Assign v e).emit vmap si lc =
            .err (.UndeclaredVariable w)) ∧
    (∀ (s : String) (init : Option Expression) (vmap : VMap) (si lc : Nat),
        VMap.contains_key vmap s = true →
          (Statement.Declaration s init).emit vmap si lc =
            .err (.DuplicateDeclaration s)) ∧
    (∀ (nm : String) (pre : List Statement) (st : Statement)
        (post : List Statement) (vmap : VMap) (si0 lc : Nat)
        (c1 : List Instr) (vmap1 : VMap) (si1 lc1 : Nat) (er : Error),
        emit_body pre vmap 8 lc = .ok (c1, vmap1, si1, lc1) →
        st.emit vmap1 si1 lc1 = .err er →
          Function.emit ⟨nm, pre ++ st :: post⟩ vmap si0 lc = .err er) := by
  refine ⟨?_, ?_, ?_, ?_⟩
  · intro s vmap si lc hg
    simp [Expression.emit, hg]
  · intro v e vmap si lc hg
    rcases expr_emit_classify e vmap si lc with ⟨⟨c1, lc1⟩, he⟩ | ⟨w, he⟩
    · refine ⟨v, ?_⟩
      simp only [Expression.emit]
      rw [he]
      simp only [EmResult.bind]
      rw [hg]
    · refine ⟨w, ?_⟩
      simp only [Expression.emit]
      rw [he]
      rfl
  · intro s init vmap si lc hc
    simp [Statement.emit, hc]
  · intro nm pre st post vmap si0 lc c1 vmap1 si1 lc1 er hpre hst
    rw [Function.emit]
    simp only
    rw [emit_body_append pre (st :: post) vmap 8 lc, hpre]
    simp only [EmResult.bind]
    rw [emit_body, hst]
    rfl

/-- Witness for C7: an unbound `Var`, an unbound `Assign`, a duplicate
declaration, and a one-statement function whose only statement is the first
(and only) violation. -/
theorem C7_semantic_error_detection_witness :
    (Expression.Var "y").emit [] 8 0 = .err (.UndeclaredVariable "y") ∧
    (∃ w, (Expression.Assign "y" (.Constant (.Int 1))).emit [] 8 0 =
      .err (.UndeclaredVariable w)) ∧
    (Statement.Declaration "x" none).emit [("x", 8)] 16 0 =
      .err (.DuplicateDeclaration "x") ∧
    Function.emit ⟨"main", [] ++ Statement.Expression (.Var "y") :: []⟩ [] 0 0 =
      .err (.UndeclaredVariable "y") :=
  ⟨C7_semantic_error_detection.1 "y" [] 8 0 rfl,
    C7_semantic_error_detection.2.1 "y" (.Constant (.Int 1)) [] 8 0 rfl,
    C7_semantic_error_detection.2.2.1 "x" none [("x", 8)] 16 0 (by decide),
    C7_semantic_error_detection.2.2.2 "main" [] (.Expression (.Var "y")) []
      [] 0 0 [] [] 8 0 (.UndeclaredVariable "y") rfl (by decide)⟩

/-- C8: `1+2*3` parses to `Addition(1, Multiplication(2, 3))`; `(1+2)*3`
parses to `Multiplication(Addition(1, 2), 3)` because the parenthesized
sub-expression re-enters the climb at minimum precedence 1; and `a = b = 3`
parses to the right-associated `Assign(a, Assign(b, 3))`. -/
theorem C8_precedence_and_associativity :
    Expression.parse 20 [Token.Literal (.Int 1), Token.Addition,
      Token.Literal (.Int 2), Token.Multiplication, Token.Literal (.Int 3),
      Token.Semicolon] =
      .ok (.Binary .Addition (.Constant (.Int 1))
        (.Binary .Multiplication (.Constant (.Int 2))
          (.Constant (.Int 3)))) [Token.Semicolon] ∧
    Expression.parse 20 [Token.OpenParenthesis, Token.Literal (.Int 1),
      Token.Addition, Token.Literal (.Int 2), Token.CloseParenthesis,
      Token.Multiplication, Token.Literal (.Int 3), Token.Semicolon] =
      .ok (.Binary .Multiplication
        (.Binary .Addition (.Constant (.Int 1)) (.Constant (.Int 2)))
        (.Constant (.Int 3))) [Token.Semicolon] ∧
    Expression.parse 20 [Token.Identifier "a", Token.Assign,
      Token.Identifier "b", Token.Assign, Token.Literal (.Int 3),
      Token.Semicolon] =
      .ok (.Assign "a" (.Assign "b" (.Constant (.Int 3)))) [Token.Semicolon] :=
  ⟨by decide, by decide, by decide⟩

/-- C9: function emission starts its stack-index counter at 8 regardless of
the caller's value; each successfully emitted declaration binds its name to
the current counter and advances the counter by 8; the three declarations
`int a; int b; int c;` receive the strictly increasing offsets 8, 16, 24;
and body emission never removes a binder entry. -/
theorem C9_stack_slot_assignment :
    (∀ (f : Function) (vmap : VMap) (si si' lc : Nat),
        f.emit vmap si lc = f.emit vmap si' lc) ∧
    (∀ (s : String) (vmap : VMap) (si lc : Nat),
        VMap.contains_key vmap s = false →
          (Statement.Declaration s none).emit vmap si lc =
            .ok ([], VMap.insert vmap s si, si + 8, lc)) ∧
    (∀ (s : String) (e : Expression) (vmap : VMap) (si lc : Nat)
        (c : List Instr) (lc' : Nat),
        VMap.contains_key vmap s = false →
        e.emit (VMap.insert vmap s si) (si + 8) lc = .ok (c, lc') →
          (Statement.Declaration s (some e)).emit vmap si lc =
            .ok (c ++ [.push .rax], VMap.insert vmap s si, si + 8, lc')) ∧
    (Function.emit ⟨"main", [.Declaration "a" none, .Declaration "b" none,
        .Declaration "c" none]⟩ [] 0 0 =
      .ok (function_prologue "main" ++ function_outro,
        [("c", 24), ("b", 16), ("a", 8)], 0) ∧
      VMap.get [("c", 24), ("b", 16), ("a", 8)] "a" = some 8 ∧
      VMap.get [("c", 24), ("b", 16), ("a", 8)] "b" = some 16 ∧
      VMap.get [("c", 24), ("b", 16), ("a", 8)] "c" = some 24 ∧
      (8 : Nat) < 16 ∧ (16 : Nat) < 24) ∧
    (∀ (stmts : List Statement) (vmap : VMap) (si lc : Nat) (c : List Instr)
        (vmap' : VMap) (si' lc' : Nat),
        emit_body stmts vmap si lc = .ok (c, vmap', si', lc') →
          ∀ k v, VMap.get vmap k = some v → VMap.get vmap' k = some v) := by
  refine ⟨?_, ?_, ?_, ⟨by decide, by decide, by decide, by decide,
    by decide, by decide⟩, ?_⟩
  · intro f vmap si si' lc
    rfl
  · intro s vmap si lc hc
    simp [Statement.emit, hc]
  · intro s e vmap si lc c lc' hc he
    simp [Statement.emit, hc, he, EmResult.bind]
  · intro stmts vmap si lc c vmap' si' lc' h k v hv
    exact emit_body_vmap_mono stmts vmap si lc c vmap' si' lc' h k v hv

/-- Witness for C9: a fresh declaration of `z` binds it at the current
counter 8 and advances to 16. -/
theorem C9_stack_slot_assignment_witness :
    (Statement.Declaration "z" none).emit [] 8 0 =
      .ok ([], VMap.insert [] "z" 8, 8 + 8, 0) :=
  C9_stack_slot_assignment.2.1 "z" [] 8 0 (by decide)

/-- C10: when a logical `Or` (or `And`) short-circuits, the emitted code
jumps to the exit label with the left operand's raw value still in `rax`:
the 0/1 normalization instructions appear only between the right-operand
label and the exit label.  Concretely, running the code emitted for `5 || x`
leaves 5 in `rax`, not a normalized 1. -/
theorem C10_short_circuit_raw_value :
    (∀ (l r : Expression) (vmap : VMap) (si lc : Nat) (c1 : List Instr)
        (lc1 : Nat) (c2 : List Instr) (lc2 : Nat),
        l.emit vmap si lc = .ok (c1, lc1) →
        r.emit vmap si lc1 = .ok (c2, lc2) →
          (Expression.Binary .Or l r).emit vmap si lc =
            .ok (c1 ++ [.cmpImm .rax 0, .je lc2, .jmp (lc2 + 1), .label lc2]
                 ++ c2
                 ++ [.cmpImm .rax 0, .movImm .rax 0, .setne,
                   .label (lc2 + 1)], lc2 + 2)) ∧
    (Expression.emit (.Binary .Or (.Constant (.Int 5)) (.Var "x"))
        [("x", 8)] 8 0 =
      .ok ([.movImm .rax 5, .cmpImm .rax 0, .je 0, .jmp 1, .label 0,
        .movLoad .rax 8, .cmpImm .rax 0, .movImm .rax 0, .setne,
        .label 1], 2)) ∧
    ((run 20 [.movImm .rax 5, .cmpImm .rax 0, .je 0, .jmp 1, .label 0,
        .movLoad .rax 8, .cmpImm .rax 0, .movImm .rax 0, .setne, .label 1] 0
        { rax := 0, rbx := 0, rcx := 0, rdx := 0, zf := false, stack := [],
          mem := [(8, 9)] }).map MState.rax = some 5) := by
  refine ⟨?_, by decide, by decide⟩
  intro l r vmap si lc c1 lc1 c2 lc2 h1 h2
  rw [emit_or_eq, h1]
  simp only [EmResult.bind]
  rw [h2]

/-- Witness for C10 at the concrete operands `5` and `x`. -/
theorem C10_short_circuit_raw_value_witness :
    (Expression.Binary .Or (.Constant (.Int 5)) (.Var "x")).emit
        [("x", 8)] 8 0 =
      .ok ([Instr.movImm .rax 5]
           ++ [.cmpImm .rax 0, .je 0, .jmp 1, .label 0]
           ++ [Instr.movLoad .rax 8]
           ++ [.cmpImm .rax 0, .movImm .rax 0, .setne, .label 1], 2) :=
  C10_short_circuit_raw_value.1 (.Constant (.Int 5)) (.Var "x") [("x", 8)]
    8 0 [Instr.movImm .rax 5] 0 [Instr.movLoad .rax 8] 0 rfl (by decide)

end CC
